import Mathlib

/-!
Verification of the task-manager core: the task collection operations
(add, update, delete, toggle), the query engine (case-insensitive substring
filter followed by a stable two-key sort), and the form validator, as
implemented in App.tsx, src/screens/HomeScreen.tsx and
src/screens/TaskFormScreen.tsx.

Strings from the source are modelled as lists of characters; the
`createdAt` ISO timestamp is modelled by the millisecond value that
`new Date(createdAt).getTime()` yields for it, and the generated record id
`Date.now().toString()` by `Nat.repr` of the clock value.
-/

namespace TaskManager

/-- The two-valued status enumeration from src/types/index.ts. -/
inductive Status where
  | pending
  | completed
deriving DecidableEq, Repr

/-- A task record, from the Task interface in src/types/index.ts.
`title` and `description` are JS strings modelled as character lists;
`createdAt` is the creation instant in milliseconds. -/
structure Task where
  id : String
  title : List Char
  description : List Char
  status : Status
  createdAt : Nat
deriving DecidableEq, Repr

/-- Lowercasing of a JS string (`s.toLowerCase()`). -/
def lowerStr (s : List Char) : List Char := s.map Char.toLower

/-- The search predicate of HomeScreen.tsx `filteredTasks`: the query occurs
case-insensitively in the title or in the description. -/
def matchesQuery (q : List Char) (t : Task) : Bool :=
  decide (lowerStr q <:+: lowerStr t.title) ||
    decide (lowerStr q <:+: lowerStr t.description)

/-- HomeScreen.tsx `filteredTasks`: keep the records matching the query. -/
def filterTasks (q : List Char) (ts : List Task) : List Task :=
  ts.filter (matchesQuery q)

/-- The comparator of HomeScreen.tsx `sortedTasks`: pending before completed,
then newest (largest `createdAt`) first. -/
def cmpTasks (a b : Task) : Int :=
  if a.status = Status.pending ∧ b.status = Status.completed then -1
  else if a.status = Status.completed ∧ b.status = Status.pending then 1
  else (b.createdAt : Int) - (a.createdAt : Int)

/-- The nonstrict order induced by the comparator. -/
def taskLe (a b : Task) : Prop := cmpTasks a b ≤ 0

instance : DecidableRel taskLe :=
  fun a b => inferInstanceAs (Decidable (cmpTasks a b ≤ 0))

/-- HomeScreen.tsx `sortedTasks`: JS `Array.prototype.sort` is stable, so it
is modelled by a stable insertion sort with the comparator order. -/
def sortTasks (ts : List Task) : List Task := List.insertionSort taskLe ts

/-- The displayed list for a query: filter, then the stable two-key sort. -/
def listTasks (q : List Char) (ts : List Task) : List Task :=
  sortTasks (filterTasks q ts)

/-- App.tsx `handleUpdateTask`: replace every record whose id matches. -/
def updateTask (ts : List Task) (r : Task) : List Task :=
  ts.map fun t => if t.id = r.id then r else t

/-- App.tsx `handleDeleteTask`: drop the records with the given id. -/
def deleteTask (i : String) (ts : List Task) : List Task :=
  ts.filter fun t => t.id != i

/-- Flip of the status, from HomeScreen.tsx `handleToggleStatus`. -/
def flipStatus : Status → Status
  | Status.completed => Status.pending
  | Status.pending => Status.completed

/-- HomeScreen.tsx `handleToggleStatus`: find the record with the id and
update it with the status flipped; do nothing when it is absent. -/
def toggleStatus (i : String) (ts : List Task) : List Task :=
  match ts.find? (fun t => t.id == i) with
  | some t => updateTask ts { t with status := flipStatus t.status }
  | none => ts

/-- JS `String.prototype.trim`: strip whitespace from both ends. -/
def trimChars (s : List Char) : List Char :=
  ((s.dropWhile Char.isWhitespace).reverse.dropWhile Char.isWhitespace).reverse

/-- The error taxonomy of the form validator. -/
inductive ValidationError where
  | EmptyTitle
  | TitleTooLong
deriving DecidableEq, Repr

/-- TaskFormScreen.tsx `validateForm`: empty trimmed title fails first, then
a trimmed title longer than 50 characters fails. -/
def validateForm (title : List Char) : Option ValidationError :=
  if (trimChars title).length = 0 then some ValidationError.EmptyTitle
  else if (trimChars title).length > 50 then some ValidationError.TitleTooLong
  else none

/-- The record built by TaskFormScreen.tsx `handleSave` in create mode:
fresh id `Date.now().toString()`, trimmed title and description, the
form status (initially pending), and the current instant as `createdAt`. -/
def saveNewTask (now : Nat) (title description : List Char)
    (st : Option Status) : Task :=
  { id := Nat.repr now
    title := trimChars title
    description := trimChars description
    status := st.getD Status.pending
    createdAt := now }

/-- The record built by TaskFormScreen.tsx `handleSave` in edit mode: the
original id and `createdAt` are kept, title and description re-trimmed. -/
def saveEditedTask (orig : Task) (title description : List Char)
    (st : Status) : Task :=
  { id := orig.id
    title := trimChars title
    description := trimChars description
    status := st
    createdAt := orig.createdAt }

/-- The full create flow (TaskFormScreen.tsx `handleSave` in create mode
feeding App.tsx `handleAddTask`): on a validation error the collection is
left untouched and the error is surfaced, otherwise the new record is
appended. -/
def createTaskState (now : Nat) (title description : List Char)
    (st : Option Status) (ts : List Task) :
    List Task × Option ValidationError :=
  match validateForm title with
  | some e => (ts, some e)
  | none => (ts ++ [saveNewTask now title description st], none)

/-- One user-driven store operation. An `add` carries the clock value the
form reads through `Date.now()`. -/
inductive Op where
  | add (now : Nat) (title description : List Char) (st : Option Status)
  | update (r : Task)
  | remove (i : String)
  | toggle (i : String)

/-- Apply one operation to the collection. -/
def applyOp (ts : List Task) : Op → List Task
  | Op.add now title description st => (createTaskState now title description st ts).1
  | Op.update r => updateTask ts r
  | Op.remove i => deleteTask i ts
  | Op.toggle i => toggleStatus i ts

/-- Run a sequence of operations. -/
def runOps (ts : List Task) (ops : List Op) : List Task :=
  ops.foldl applyOp ts

/-- Uniqueness of ids across the live collection. -/
def NodupIds (ts : List Task) : Prop := (ts.map Task.id).Nodup

instance (ts : List Task) : Decidable (NodupIds ts) :=
  inferInstanceAs (Decidable ((ts.map Task.id).Nodup))

/-- An operation is clock-fresh for a collection when, if it is an `add`,
the id it would generate does not already occur. -/
def freshOp (ts : List Task) : Op → Bool
  | Op.add now _ _ _ => decide (Nat.repr now ∉ ts.map Task.id)
  | _ => true

/-- Every `add` along the run generates an id not present at that moment. -/
def freshRun (ts : List Task) : List Op → Bool
  | [] => true
  | op :: ops => freshOp ts op && freshRun (applyOp ts op) ops

/-- The sort key of a record: its status together with its creation time. -/
def sameKey (s : Status) (c : Nat) (t : Task) : Bool :=
  decide (t.status = s) && decide (t.createdAt = c)

/-- Rank giving the primary sort key: pending strictly before completed. -/
def statusRank : Status → Nat
  | Status.pending => 0
  | Status.completed => 1

/-- Sample records used to instantiate the universally quantified facts. -/
def demoA : Task :=
  { id := "1", title := ['B', 'u', 'y'], description := [' '],
    status := Status.pending, createdAt := 3 }

def demoB : Task :=
  { id := "2", title := ['R', 'e', 'a', 'd'], description := [],
    status := Status.pending, createdAt := 5 }

def demoC : Task :=
  { id := "3", title := ['D', 'o', 'n', 'e'], description := [],
    status := Status.completed, createdAt := 7 }

def demoTasks : List Task := [demoA, demoB, demoC]

def demoAbsent : Task :=
  { id := "9", title := ['Z'], description := [],
    status := Status.pending, createdAt := 11 }

/-- A record created at clock value 5, so with id "5". -/
def clashTask : Task := saveNewTask 5 ['a'] [] none

/-! ### The comparator order -/

theorem cmpTasks_le_iff (a b : Task) :
    cmpTasks a b ≤ 0 ↔
      (statusRank a.status < statusRank b.status ∨
        (a.status = b.status ∧ b.createdAt ≤ a.createdAt)) := by
  rcases a with ⟨ia, ta, da, sa, ca⟩
  rcases b with ⟨ib, tb, db, sb, cb⟩
  cases sa <;> cases sb <;> simp [cmpTasks, statusRank]

theorem cmpTasks_eq_zero (a b : Task) (h1 : a.status = b.status)
    (h2 : a.createdAt = b.createdAt) : cmpTasks a b = 0 := by
  rcases a with ⟨ia, ta, da, sa, ca⟩
  rcases b with ⟨ib, tb, db, sb, cb⟩
  simp only at h1 h2
  subst h1; subst h2
  cases sa <;> simp [cmpTasks]

theorem taskLe_total (a b : Task) : taskLe a b ∨ taskLe b a := by
  unfold taskLe
  rw [cmpTasks_le_iff, cmpTasks_le_iff]
  rcases a with ⟨ia, ta, da, sa, ca⟩
  rcases b with ⟨ib, tb, db, sb, cb⟩
  cases sa <;> cases sb <;> simp [statusRank] <;> omega

theorem taskLe_trans (a b c : Task) (hab : taskLe a b) (hbc : taskLe b c) :
    taskLe a c := by
  unfold taskLe at hab hbc ⊢
  rw [cmpTasks_le_iff] at hab hbc ⊢
  rcases a with ⟨ia, ta, da, sa, ca⟩
  rcases b with ⟨ib, tb, db, sb, cb⟩
  rcases c with ⟨ic, tc, dc, sc, cc⟩
  cases sa <;> cases sb <;> cases sc <;> simp_all [statusRank] <;> omega

instance : IsTotal Task taskLe := ⟨taskLe_total⟩

instance : IsTrans Task taskLe := ⟨taskLe_trans⟩

/-- What being below in the comparator order says about the two records. -/
theorem taskLe_imp (a b : Task) (h : taskLe a b) :
    ¬(a.status = Status.completed ∧ b.status = Status.pending) ∧
      (a.status = b.status → b.createdAt ≤ a.createdAt) := by
  unfold taskLe at h
  rw [cmpTasks_le_iff] at h
  rcases a with ⟨ia, ta, da, sa, ca⟩
  rcases b with ⟨ib, tb, db, sb, cb⟩
  cases sa <;> cases sb <;> simp_all [statusRank]

theorem sameKey_eq_true (s : Status) (c : Nat) (t : Task) :
    sameKey s c t = true ↔ (t.status = s ∧ t.createdAt = c) := by
  simp [sameKey]

/-! ### Stability of the sort -/

theorem filter_orderedInsert (s : Status) (c : Nat) (a : Task)
    (l : List Task) :
    (List.orderedInsert taskLe a l).filter (sameKey s c) =
      if sameKey s c a = true then a :: l.filter (sameKey s c)
      else l.filter (sameKey s c) := by
  induction l with
  | nil => simp [List.orderedInsert, List.filter_cons]
  | cons b l ih =>
      by_cases hab : taskLe a b
      · rw [List.orderedInsert, if_pos hab, List.filter_cons]
      · rw [List.orderedInsert, if_neg hab, List.filter_cons, ih]
        by_cases hsa : sameKey s c a = true
        · by_cases hsb : sameKey s c b = true
          · exfalso
            apply hab
            rw [sameKey_eq_true] at hsa hsb
            unfold taskLe
            rw [cmpTasks_eq_zero a b (hsa.1.trans hsb.1.symm)
              (hsa.2.trans hsb.2.symm)]
          · simp [hsa, hsb, List.filter_cons]
        · by_cases hsb : sameKey s c b = true <;>
            simp [hsa, hsb, List.filter_cons]

theorem filter_sortTasks (s : Status) (c : Nat) (l : List Task) :
    (sortTasks l).filter (sameKey s c) = l.filter (sameKey s c) := by
  induction l with
  | nil => rfl
  | cons a l ih =>
      show (List.orderedInsert taskLe a
        (List.insertionSort taskLe l)).filter (sameKey s c) = _
      rw [filter_orderedInsert]
      unfold sortTasks at ih
      rw [ih, List.filter_cons]

/-! ### Store operation lemmas -/

theorem updateTask_map_id (ts : List Task) (r : Task) :
    (updateTask ts r).map Task.id = ts.map Task.id := by
  unfold updateTask
  rw [List.map_map]
  apply List.map_congr_left
  intro t ht
  by_cases h : t.id = r.id
  · simp [Function.comp, h]
  · simp [Function.comp, h]

theorem updateTask_of_not_mem (ts : List Task) (r : Task)
    (h : r.id ∉ ts.map Task.id) : updateTask ts r = ts := by
  unfold updateTask
  have hc : ∀ t ∈ ts, (if t.id = r.id then r else t) = t := by
    intro t ht
    rw [if_neg]
    intro he
    exact h (he ▸ List.mem_map_of_mem Task.id ht)
  calc ts.map (fun t => if t.id = r.id then r else t)
      = ts.map id := List.map_congr_left (fun a ha => hc a ha)
    _ = ts := List.map_id ts

theorem find?_id_eq_none (ts : List Task) (i : String)
    (h : i ∉ ts.map Task.id) : ts.find? (fun t => t.id == i) = none := by
  rw [List.find?_eq_none]
  intro t ht
  simp only [beq_iff_eq]
  intro he
  exact h (he ▸ List.mem_map_of_mem Task.id ht)

theorem toggleStatus_of_not_mem (ts : List Task) (i : String)
    (h : i ∉ ts.map Task.id) : toggleStatus i ts = ts := by
  unfold toggleStatus
  rw [find?_id_eq_none ts i h]

theorem find?_updateTask (ts : List Task) (r : Task) (i : String)
    (hr : r.id = i) :
    (updateTask ts r).find? (fun t => t.id == i) =
      (ts.find? (fun t => t.id == i)).map
        (fun t => if t.id = r.id then r else t) := by
  subst hr
  unfold updateTask
  rw [List.find?_map]
  have hp : ((fun t => t.id == r.id) ∘ fun t => if t.id = r.id then r else t) =
      (fun t => t.id == r.id) := by
    funext t
    by_cases h : t.id = r.id <;> simp [Function.comp, h]
  rw [hp]

theorem updateTask_updateTask_cancel (ts : List Task) (t t1 : Task)
    (hid : t1.id = t.id) (h : NodupIds ts) (htm : t ∈ ts) :
    updateTask (updateTask ts t1) t = ts := by
  unfold updateTask
  rw [List.map_map]
  have hc : ∀ x ∈ ts,
      ((fun y => if y.id = t.id then t else y) ∘
        (fun y => if y.id = t1.id then t1 else y)) x = x := by
    intro x hx
    by_cases hxi : x.id = t.id
    · have hx1 : x = t := List.inj_on_of_nodup_map h hx htm hxi
      subst hx1
      simp [Function.comp, hid]
    · simp [Function.comp, hid, hxi]
  calc ts.map _ = ts.map id := List.map_congr_left (fun a ha => hc a ha)
    _ = ts := List.map_id ts

theorem mem_deleteTask (ts : List Task) (i : String) (t : Task) :
    t ∈ deleteTask i ts ↔ t ∈ ts ∧ t.id ≠ i := by
  unfold deleteTask
  simp [List.mem_filter]

theorem not_mem_ids_deleteTask (ts : List Task) (i : String) :
    i ∉ (deleteTask i ts).map Task.id := by
  intro hm
  rcases List.mem_map.mp hm with ⟨t, ht, hid⟩
  exact ((mem_deleteTask ts i t).mp ht).2 hid

theorem mem_sortTasks (l : List Task) (t : Task) :
    t ∈ sortTasks l ↔ t ∈ l :=
  (List.perm_insertionSort taskLe l).mem_iff

theorem filterTasks_nil (ts : List Task) : filterTasks [] ts = ts := by
  unfold filterTasks
  apply List.filter_eq_self.mpr
  intro t ht
  simp [matchesQuery, lowerStr]

/-! ### Preservation of id uniqueness -/

theorem nodupIds_append_fresh (ts : List Task) (t : Task) (h : NodupIds ts)
    (hf : t.id ∉ ts.map Task.id) : NodupIds (ts ++ [t]) := by
  unfold NodupIds
  rw [List.map_append]
  refine List.Nodup.append h (List.nodup_singleton t.id) ?_
  intro x hx hmem
  rcases List.mem_singleton.mp hmem with rfl
  exact hf hx

theorem updateTask_nodup (ts : List Task) (r : Task) (h : NodupIds ts) :
    NodupIds (updateTask ts r) := by
  unfold NodupIds
  rw [updateTask_map_id]
  exact h

theorem deleteTask_nodup (ts : List Task) (i : String) (h : NodupIds ts) :
    NodupIds (deleteTask i ts) := by
  unfold NodupIds deleteTask
  exact List.Nodup.sublist ((List.filter_sublist ts).map Task.id) h

theorem toggleStatus_nodup (ts : List Task) (i : String) (h : NodupIds ts) :
    NodupIds (toggleStatus i ts) := by
  unfold toggleStatus
  cases ts.find? (fun t => t.id == i) with
  | none => exact h
  | some t => exact updateTask_nodup ts _ h

theorem applyOp_nodup (ts : List Task) (op : Op) (h : NodupIds ts)
    (hfresh : freshOp ts op = true) : NodupIds (applyOp ts op) := by
  cases op with
  | add now title description st =>
      show NodupIds (createTaskState now title description st ts).1
      unfold createTaskState
      cases hv : validateForm title with
      | some e => simp only [hv]; exact h
      | none =>
          simp only [hv]
          exact nodupIds_append_fresh ts _ h (of_decide_eq_true hfresh)
  | update r => exact updateTask_nodup ts r h
  | remove i => exact deleteTask_nodup ts i h
  | toggle i => exact toggleStatus_nodup ts i h

/-! ### The toggle operation -/

theorem flipStatus_flipStatus (s : Status) : flipStatus (flipStatus s) = s := by
  cases s <;> rfl

theorem toggleStatus_of_find? (ts : List Task) (i : String) (t : Task)
    (hf : ts.find? (fun x => x.id == i) = some t) :
    toggleStatus i ts =
      updateTask ts { t with status := flipStatus t.status } := by
  unfold toggleStatus
  rw [hf]

theorem find?_toggleStatus (ts : List Task) (i : String) (t : Task)
    (hf : ts.find? (fun x => x.id == i) = some t) :
    (toggleStatus i ts).find? (fun x => x.id == i) =
      some { t with status := flipStatus t.status } := by
  have hti : t.id = i := by simpa using List.find?_some hf
  rw [toggleStatus_of_find? ts i t hf]
  rw [find?_updateTask ts { t with status := flipStatus t.status } i hti]
  rw [hf]
  simp

theorem toggleStatus_toggleStatus (ts : List Task) (i : String)
    (h : NodupIds ts) : toggleStatus i (toggleStatus i ts) = ts := by
  cases hf : ts.find? (fun x => x.id == i) with
  | none =>
      have h1 : toggleStatus i ts = ts := by unfold toggleStatus; rw [hf]
      rw [h1, h1]
  | some t =>
      have htm : t ∈ ts := List.mem_of_find?_eq_some hf
      have h1 := toggleStatus_of_find? ts i t hf
      have hf2 := find?_toggleStatus ts i t hf
      have h2 := toggleStatus_of_find? (toggleStatus i ts) i _ hf2
      rw [h2, h1]
      have ht2 : ({ { t with status := flipStatus t.status } with
          status :=
            flipStatus ({ t with status := flipStatus t.status }).status })
          = t := by
        rcases t with ⟨tid, ttl, tds, tst, tca⟩
        simp [flipStatus_flipStatus]
      rw [ht2]
      exact updateTask_updateTask_cancel ts t _ rfl h htm

/-! ### The claims -/

/-- C1: for every task collection and every query, the displayed list (the
sorted view computed by HomeScreen) never places a completed record before a
pending one, and among records of equal status the later `createdAt` comes
first; the two-key sort is stable, so the records with a given status and
creation time appear in the view exactly as they occur in the input
collection restricted to the query matches. -/
theorem c1_view_sorted_and_stable (ts : List Task) (q : List Char) :
    (listTasks q ts).Pairwise (fun a b =>
      ¬(a.status = Status.completed ∧ b.status = Status.pending) ∧
        (a.status = b.status → b.createdAt ≤ a.createdAt)) ∧
    ∀ s c, (listTasks q ts).filter (sameKey s c) =
      ts.filter (fun t => sameKey s c t && matchesQuery q t) := by
  constructor
  · have hs : (listTasks q ts).Pairwise taskLe :=
      List.sorted_insertionSort taskLe (filterTasks q ts)
    exact List.Pairwise.imp (fun hab => taskLe_imp _ _ hab) hs
  · intro s c
    show (sortTasks (filterTasks q ts)).filter (sameKey s c) = _
    rw [filter_sortTasks]
    unfold filterTasks
    rw [List.filter_filter]

theorem c1_witness :
    (listTasks ['b', 'u', 'y'] demoTasks).filter (sameKey Status.pending 3) =
      demoTasks.filter (fun t =>
        sameKey Status.pending 3 t && matchesQuery ['b', 'u', 'y'] t) :=
  (c1_view_sorted_and_stable demoTasks ['b', 'u', 'y']).2 Status.pending 3

/-- C2: the filter step retains exactly the records where the query occurs
as a case-insensitive substring of the title or of the description; the
empty query retains every record, so the view for the empty query is the
whole collection in the specified sort order. -/
theorem c2_filter_exact (ts : List Task) (q : List Char) :
    (∀ t, t ∈ filterTasks q ts ↔
      t ∈ ts ∧ (lowerStr q <:+: lowerStr t.title ∨
        lowerStr q <:+: lowerStr t.description)) ∧
    filterTasks [] ts = ts ∧
    listTasks [] ts = sortTasks ts := by
  refine ⟨?_, filterTasks_nil ts, ?_⟩
  · intro t
    unfold filterTasks matchesQuery
    rw [List.mem_filter]
    simp
  · show sortTasks (filterTasks [] ts) = sortTasks ts
    rw [filterTasks_nil]

theorem c2_witness : filterTasks [] demoTasks = demoTasks :=
  (c2_filter_exact demoTasks []).2.1

/-- C9: an update or a toggle whose id does not occur in the collection is a
silent no-op: the collection is left exactly unchanged. -/
theorem c9_absent_id_noop (ts : List Task) (i : String) (r : Task)
    (h1 : i ∉ ts.map Task.id) (h2 : r.id = i) :
    updateTask ts r = ts ∧ toggleStatus i ts = ts := by
  refine ⟨updateTask_of_not_mem ts r ?_, toggleStatus_of_not_mem ts i h1⟩
  rw [h2]
  exact h1

theorem c9_witness :
    updateTask demoTasks demoAbsent = demoTasks ∧
      toggleStatus "9" demoTasks = demoTasks :=
  c9_absent_id_noop demoTasks "9" demoAbsent (by decide) rfl

/-- C8: after deleting an id no record with that id remains (also not in the
displayed list for the empty query), every later update, toggle or delete
naming that id is a no-op, and deleting an absent id is itself a no-op. -/
theorem c8_delete_absent (ts : List Task) (i : String) (r : Task)
    (hr : r.id = i) :
    (∀ t ∈ deleteTask i ts, t.id ≠ i) ∧
    (∀ t ∈ listTasks [] (deleteTask i ts), t.id ≠ i) ∧
    updateTask (deleteTask i ts) r = deleteTask i ts ∧
    toggleStatus i (deleteTask i ts) = deleteTask i ts ∧
    deleteTask i (deleteTask i ts) = deleteTask i ts ∧
    (i ∉ ts.map Task.id → deleteTask i ts = ts) := by
  refine ⟨?_, ?_, ?_, ?_, ?_, ?_⟩
  · intro t ht
    exact ((mem_deleteTask ts i t).mp ht).2
  · intro t ht
    rw [show listTasks [] (deleteTask i ts) =
        sortTasks (filterTasks [] (deleteTask i ts)) from rfl,
      filterTasks_nil, mem_sortTasks] at ht
    exact ((mem_deleteTask ts i t).mp ht).2
  · apply updateTask_of_not_mem
    rw [hr]
    exact not_mem_ids_deleteTask ts i
  · exact toggleStatus_of_not_mem _ i (not_mem_ids_deleteTask ts i)
  · unfold deleteTask
    rw [List.filter_filter]
    apply List.filter_congr
    intro t ht
    simp
  · intro h
    unfold deleteTask
    apply List.filter_eq_self.mpr
    intro t ht
    simp only [bne_iff_ne, ne_eq]
    intro he
    exact h (he ▸ List.mem_map_of_mem Task.id ht)

theorem c8_witness :
    toggleStatus "1" (deleteTask "1" demoTasks) = deleteTask "1" demoTasks ∧
      deleteTask "1" (deleteTask "1" demoTasks) = deleteTask "1" demoTasks :=
  ⟨(c8_delete_absent demoTasks "1" demoA rfl).2.2.2.1,
    (c8_delete_absent demoTasks "1" demoA rfl).2.2.2.2.1⟩

/-- C10: the store update preserves the length of the collection and acts
pointwise: the record at every position keeps its place, records with a
different id are unchanged, and every record carrying the updated id
(duplicates included) is replaced by the new record. -/
theorem c10_update_pointwise (ts : List Task) (r : Task) :
    (updateTask ts r).length = ts.length ∧
    ∀ n : Nat, (updateTask ts r)[n]? =
      Option.map (fun t => if t.id = r.id then r else t) ts[n]? := by
  constructor
  · unfold updateTask
    exact List.length_map ts _
  · intro n
    unfold updateTask
    exact List.getElem?_map _ ts n

/-- C3: an update applied through the store with a record that the form
built from an existing record (identified by its id) leaves the id and the
`createdAt` of every position of the collection unchanged; only title,
description and status can differ. -/
theorem c3_update_preserves_id_createdAt (ts : List Task) (orig : Task)
    (title desc : List Char) (st : Status) (h1 : NodupIds ts)
    (h2 : orig ∈ ts) :
    (updateTask ts (saveEditedTask orig title desc st)).map Task.id =
      ts.map Task.id ∧
    (updateTask ts (saveEditedTask orig title desc st)).map Task.createdAt =
      ts.map Task.createdAt := by
  refine ⟨updateTask_map_id ts _, ?_⟩
  unfold updateTask
  rw [List.map_map]
  apply List.map_congr_left
  intro t ht
  by_cases hid : t.id = (saveEditedTask orig title desc st).id
  · have heq : t = orig := List.inj_on_of_nodup_map h1 ht h2 hid
    subst heq
    simp [Function.comp, saveEditedTask]
  · simp [Function.comp, hid]

theorem c3_witness :
    (updateTask demoTasks
        (saveEditedTask demoB ['x'] [] Status.completed)).map Task.id =
      demoTasks.map Task.id ∧
    (updateTask demoTasks
        (saveEditedTask demoB ['x'] [] Status.completed)).map
          Task.createdAt = demoTasks.map Task.createdAt :=
  c3_update_preserves_id_createdAt demoTasks demoB ['x'] [] Status.completed
    (by decide) (by decide)

/-- C5: on a collection with unique ids, toggling the same id twice restores
the collection exactly (so the identified record returns to its original
status), and one toggle maps the found record's status pending to completed
and completed to pending. -/
theorem c5_toggle_involution (ts : List Task) (i : String)
    (h : NodupIds ts) :
    toggleStatus i (toggleStatus i ts) = ts ∧
    (∀ t, ts.find? (fun x => x.id == i) = some t →
      (toggleStatus i ts).find? (fun x => x.id == i) =
        some { t with status := flipStatus t.status }) ∧
    flipStatus Status.pending = Status.completed ∧
    flipStatus Status.completed = Status.pending :=
  ⟨toggleStatus_toggleStatus ts i h,
    fun t hf => find?_toggleStatus ts i t hf, rfl, rfl⟩

theorem c5_witness :
    toggleStatus "1" (toggleStatus "1" demoTasks) = demoTasks :=
  (c5_toggle_involution demoTasks "1" (by decide)).1

/-- C4 (amended): starting from a collection with pairwise distinct ids, id
uniqueness is preserved by every sequence of add, update, remove and toggle
operations in which each add generates an id (the decimal string of the
clock value) that is absent from the collection at that moment; update,
remove and toggle preserve uniqueness unconditionally. -/
theorem c4_unique_ids_preserved (ts : List Task) (ops : List Op)
    (h1 : NodupIds ts) (h2 : freshRun ts ops = true) :
    NodupIds (runOps ts ops) := by
  induction ops generalizing ts with
  | nil => exact h1
  | cons op ops ih =>
      rw [show runOps ts (op :: ops) = runOps (applyOp ts op) ops from rfl]
      unfold freshRun at h2
      rw [Bool.and_eq_true] at h2
      exact ih (applyOp ts op) (applyOp_nodup ts op h1 h2.1) h2.2

/-- C4 counterexample: from the empty collection, two creations in the same
millisecond (clock value 5) both generate the id "5", so the reachable
collection has a duplicated id. -/
theorem c4_counterexample :
    NodupIds ([] : List Task) ∧
    ¬ NodupIds (runOps []
      [Op.add 5 ['a'] [] none, Op.add 5 ['b'] [] none]) := by
  decide

theorem c4_witness :
    NodupIds (runOps []
      [Op.add 1 ['a'] [] none, Op.add 2 ['b'] [] (some Status.completed),
        Op.toggle "1", Op.remove "2"]) :=
  c4_unique_ids_preserved []
    [Op.add 1 ['a'] [] none, Op.add 2 ['b'] [] (some Status.completed),
      Op.toggle "1", Op.remove "2"]
    (by decide) (by decide)

/-- C6: validation fails with EmptyTitle exactly when the trimmed title is
empty, with TitleTooLong exactly when the trimmed title has more than 50
characters, succeeds otherwise, and on any failure the create flow leaves
the collection unchanged and surfaces exactly the validation error. -/
theorem c6_validation (title desc : List Char) (now : Nat)
    (st : Option Status) (ts : List Task) :
    (validateForm title = some ValidationError.EmptyTitle ↔
      (trimChars title).length = 0) ∧
    (validateForm title = some ValidationError.TitleTooLong ↔
      50 < (trimChars title).length) ∧
    (validateForm title = none ↔
      (trimChars title).length ≠ 0 ∧ (trimChars title).length ≤ 50) ∧
    ((createTaskState now title desc st ts).2 ≠ none →
      (createTaskState now title desc st ts).1 = ts) ∧
    (createTaskState now title desc st ts).2 = validateForm title := by
  unfold createTaskState validateForm
  by_cases h0 : (trimChars title).length = 0
  · simp [h0]
  · by_cases h50 : 50 < (trimChars title).length
    · simp [h0, h50]
    · simp [h0, h50]
      omega

theorem c6_witness :
    (createTaskState 1 [' '] [] none []).1 = ([] : List Task) :=
  (c6_validation [' '] [] 1 none []).2.2.2.1 (by decide)

/-- C7 (amended): for a valid title, the create flow appends exactly one
record, whose title is the trimmed input, whose status is pending when no
status is specified, whose `createdAt` is not earlier than the call
instant, and whose id is distinct from every existing id provided the
generated id (the decimal string of the clock value) is absent from the
collection. -/
theorem c7_create_appends (now : Nat) (title desc : List Char)
    (st : Option Status) (ts : List Task)
    (h1 : validateForm title = none)
    (h2 : Nat.repr now ∉ ts.map Task.id) :
    (createTaskState now title desc st ts).1 =
      ts ++ [saveNewTask now title desc st] ∧
    (createTaskState now title desc st ts).2 = none ∧
    (saveNewTask now title desc st).title = trimChars title ∧
    (saveNewTask now title desc none).status = Status.pending ∧
    (saveNewTask now title desc st).id ∉ ts.map Task.id ∧
    now ≤ (saveNewTask now title desc st).createdAt := by
  unfold createTaskState
  rw [h1]
  exact ⟨rfl, rfl, rfl, rfl, h2, Nat.le_refl now⟩

/-- C7 counterexample: with a record created at clock value 5 already in the
collection, a second valid creation at clock value 5 succeeds but its
generated id "5" equals the existing record's id, so the new id is not
fresh. -/
theorem c7_counterexample :
    validateForm ['b'] = none ∧
    (createTaskState 5 ['b'] [] none [clashTask]).2 = none ∧
    (createTaskState 5 ['b'] [] none [clashTask]).1 =
      [clashTask, saveNewTask 5 ['b'] [] none] ∧
    (saveNewTask 5 ['b'] [] none).id ∈ [clashTask].map Task.id := by
  decide

theorem c7_witness :
    (createTaskState 9 ['a'] [] none demoTasks).1 =
      demoTasks ++ [saveNewTask 9 ['a'] [] none] ∧
    (createTaskState 9 ['a'] [] none demoTasks).2 = none ∧
    (saveNewTask 9 ['a'] [] none).title = trimChars ['a'] ∧
    (saveNewTask 9 ['a'] [] none).status = Status.pending ∧
    (saveNewTask 9 ['a'] [] none).id ∉ demoTasks.map Task.id ∧
    9 ≤ (saveNewTask 9 ['a'] [] none).createdAt :=
  c7_create_appends 9 ['a'] [] none demoTasks (by decide) (by decide)

end TaskManager
